import Mathlib

/-!
# pgtype-json-demo: array reconstruction

A shallow embedding of `main.go`: the functions `notNull`,
`extractSubDimensions`, `reconstruct2D`, `reconstruct` and the method
`TextArray.MarshalJSON` (with the library function `json.Marshal` as a
parameter), followed by theorems about them.

Conventions of the embedding.

* A Go `int` is an `Int`; no arithmetic of the program can overflow on the
  inputs considered (indices are bounded by slice lengths).
* A Go slice is a `List`. An indexed read or write is bounds checked and a
  failed check is a run-time panic, as are `make` with a negative length and an
  integer division by zero. A computation that may panic returns
  `Except Panic _`.
* An `interface{}` that is stored as an array element is an `Option α`:
  `none` is the nil interface, `some a` a dynamic value `a` (for `MarshalJSON`,
  `α = String`).
* The `error` result of `reconstruct` is an `Option String`: `none` is the nil
  error, `some msg` an error whose message is `msg`. The `error` result of
  `MarshalJSON` is an `Option GoError`, which also records the wrapped error.
-/

namespace PgtypeJsonDemo

/-! ## Run-time model -/

/-- The run-time panics the program can raise. -/
inductive Panic where
  | indexOutOfRange
  | makesliceLenOutOfRange
  | integerDivideByZero
  deriving DecidableEq, Repr

/-- Bounds-checked read `xs[i]`. -/
def index {β : Type} (xs : List β) (i : Int) : Except Panic β :=
  if i < 0 then .error .indexOutOfRange
  else
    match xs[i.toNat]? with
    | some v => .ok v
    | none => .error .indexOutOfRange

/-- Bounds-checked write `xs[i] = v`. -/
def store {β : Type} (xs : List β) (i : Int) (v : β) : Except Panic (List β) :=
  if 0 ≤ i ∧ i.toNat < xs.length then .ok (xs.set i.toNat v)
  else .error .indexOutOfRange

/-- The builtin `make([]T, n)`: `n` copies of the zero value of `T`. -/
def make {β : Type} (n : Int) (zero : β) : Except Panic (List β) :=
  if n < 0 then .error .makesliceLenOutOfRange
  else .ok (List.replicate n.toNat zero)

/-- Integer quotient `a / b` of Go: truncated towards zero, panics when `b = 0`. -/
def goDiv (a b : Int) : Except Panic Int :=
  if b = 0 then .error .integerDivideByZero else .ok (Int.tdiv a b)

/-- Integer remainder `a % b` of Go: sign of the dividend, panics when `b = 0`. -/
def goMod (a b : Int) : Except Panic Int :=
  if b = 0 then .error .integerDivideByZero else .ok (Int.tmod a b)

/-! ## Data model -/

/-- Modelled from the spec: `pgtype.Status`, declared in the pgtype library and
not in this repository. An element is `Present`, `Null` (SQL NULL) or
`Undefined`. -/
inductive Status where
  | Undefined
  | Null
  | Present
  deriving DecidableEq, Repr

/-- Modelled from the spec: `pgtype.Text`, an element of a `pgtype.TextArray`:
a text and its status. -/
structure Text where
  String : String
  Status : Status
  deriving DecidableEq, Repr

/-- Modelled from the spec: `pgtype.ArrayDimension`. Both fields are `int32` in
the library; the conversion `int(d.Length)` keeps the value. -/
structure ArrayDimension where
  Length : Int
  LowerBound : Int
  deriving DecidableEq, Repr

/-- The type `TextArray`: the embedded `pgtype.TextArray` with its flat element
list and its dimensions. -/
structure TextArray where
  Elements : List Text
  Dimensions : List ArrayDimension
  deriving DecidableEq, Repr

/-- The `interface{}` values that `reconstruct` returns: the nil interface, a
`[]interface{}` or a `[][]interface{}`. -/
inductive Nested (α : Type) where
  | nil
  | slice (xs : List (Option α))
  | slice2 (rows : List (List (Option α)))
  deriving DecidableEq, Repr

/-- Number of slice levels of a returned value. -/
def Nested.depth {α : Type} : Nested α → Nat
  | .nil => 0
  | .slice _ => 1
  | .slice2 _ => 2

/-- The scalar elements of a returned value, depth first and left to right. -/
def Nested.flatten {α : Type} : Nested α → List (Option α)
  | .nil => []
  | .slice xs => xs
  | .slice2 rows => rows.flatten

/-! ## The program -/

/-- The function `notNull`: `status == pgtype.Present`. -/
def notNull (status : Status) : Bool :=
  status == Status.Present

/-- The loop of `extractSubDimensions`, `for i, d := range dims`, from index
`i` on with the remaining records. -/
def extractLoop : Nat → List ArrayDimension → List Int → Except Panic (List Int)
  | _, [], ds => .ok ds
  | i, d :: rest, ds =>
    match store ds (i : Int) d.Length with
    | .error p => .error p
    | .ok ds1 => extractLoop (i + 1) rest ds1

/-- The function `extractSubDimensions`. -/
def extractSubDimensions (dims : List ArrayDimension) : Except Panic (List Int) :=
  match make (dims.length : Int) (0 : Int) with
  | .error p => .error p
  | .ok ds => extractLoop 0 dims ds

/-- The first loop of `reconstruct2D`, `for i := 0; i < dimensions[0]; i++`,
with `todo` iterations left, the next one at index `i`. -/
def rowsLoop {α : Type} (dimensions : List Int) :
    Nat → Nat → List (List (Option α)) → Except Panic (List (List (Option α)))
  | 0, _, x => .ok x
  | todo + 1, i, x =>
    match index dimensions 1 with
    | .error p => .error p
    | .ok d1 =>
      match make d1 (none : Option α) with
      | .error p => .error p
      | .ok row =>
        match store x (i : Int) row with
        | .error p => .error p
        | .ok x1 => rowsLoop dimensions todo (i + 1) x1

/-- The second loop of `reconstruct2D`, `for i, e := range elements`, from index
`i` on with the remaining elements. -/
def fillLoop {α : Type} (p : Int) :
    Nat → List (Option α) → List (List (Option α)) → Except Panic (List (List (Option α)))
  | _, [], x => .ok x
  | i, e :: rest, x =>
    match goDiv (i : Int) p with
    | .error f => .error f
    | .ok i0 =>
      match goMod (i : Int) p with
      | .error f => .error f
      | .ok i1 =>
        match index x i0 with
        | .error f => .error f
        | .ok row =>
          match store row i1 e with
          | .error f => .error f
          | .ok row1 =>
            match store x i0 row1 with
            | .error f => .error f
            | .ok x1 => fillLoop p (i + 1) rest x1

/-- The function `reconstruct2D`. -/
def reconstruct2D {α : Type} (elements : List (Option α)) (dimensions : List Int) :
    Except Panic (List (List (Option α))) :=
  match index dimensions 0 with
  | .error f => .error f
  | .ok d0 =>
    match make d0 ([] : List (Option α)) with
    | .error f => .error f
    | .ok x =>
      match rowsLoop dimensions d0.toNat 0 x with
      | .error f => .error f
      | .ok x1 =>
        match index dimensions 1 with
        | .error f => .error f
        | .ok p => fillLoop p 0 elements x1

/-- The message of `fmt.Errorf("invalid dimension: %d", n)`. -/
def invalidDimension (n : Nat) : String :=
  "invalid dimension: " ++ toString n

/-- The function `reconstruct`: the returned value and the returned error. -/
def reconstruct {α : Type} (elements : List (Option α)) (dimensions : List Int) :
    Except Panic (Nested α × Option String) :=
  if dimensions.length = 0 then .ok (.slice [], none)
  else
    match dimensions.length with
    | 0 => .ok (.slice elements, none)
    | 1 => .ok (.slice elements, none)
    | 2 =>
      match reconstruct2D elements dimensions with
      | .error f => .error f
      | .ok rows => .ok (.slice2 rows, none)
    | n + 3 => .ok (.nil, some (invalidDimension (n + 3)))

/-- The element loop of `MarshalJSON`, `for i, e := range a.Elements`, from
index `i` on with the remaining elements. -/
def elementsLoop : Nat → List Text → List (Option String) → Except Panic (List (Option String))
  | _, [], elements => .ok elements
  | i, e :: rest, elements =>
    if notNull e.Status then
      match store elements (i : Int) (some e.String) with
      | .error p => .error p
      | .ok elements1 => elementsLoop (i + 1) rest elements1
    else elementsLoop (i + 1) rest elements

/-- The flat value list that `MarshalJSON` builds from `a.Elements` before it
calls `reconstruct`. -/
def marshalElements (a : TextArray) : Except Panic (List (Option String)) :=
  match make (a.Elements.length : Int) (none : Option String) with
  | .error p => .error p
  | .ok elements => elementsLoop 0 a.Elements elements

/-- An `error` value returned by `MarshalJSON`: its message and, when the error
was made by `fmt.Errorf` with the verb `%w`, the message of the error it wraps. -/
structure GoError where
  message : String
  wrapped : Option String
  deriving DecidableEq, Repr

/-- The error of `fmt.Errorf("reconstructing array failed: %w", err)`. -/
def reconstructingFailed (err : String) : GoError :=
  { message := "reconstructing array failed: " ++ err, wrapped := some err }

/-- The method `TextArray.MarshalJSON`: the returned bytes (`none` is the nil
slice) and the returned error. The library function `json.Marshal` is the
parameter `jsonMarshal`, with bytes of any type `B`. -/
def MarshalJSON {B : Type} (jsonMarshal : Nested String → Option B × Option GoError)
    (a : TextArray) : Except Panic (Option B × Option GoError) :=
  match marshalElements a with
  | .error p => .error p
  | .ok elements =>
    match extractSubDimensions a.Dimensions with
    | .error p => .error p
    | .ok dimensions =>
      match reconstruct elements dimensions with
      | .error p => .error p
      | .ok (elementsWithDimensions, err) =>
        match err with
        | some e => .ok (none, some (reconstructingFailed e))
        | none => .ok (jsonMarshal elementsWithDimensions)

/-! ## Auxiliary notions for the proofs -/

/-- A serializer to run `MarshalJSON` on examples: `null` for nil, the text
between double quotes (no escaping) and bracketed, comma-separated sequences;
it never returns an error. -/
def sampleMarshal (v : Nested String) : Option String × Option GoError :=
  let text : Option String → String := fun e =>
    match e with
    | none => "null"
    | some s => String.singleton (Char.ofNat 34) ++ s ++ String.singleton (Char.ofNat 34)
  let row : List (Option String) → String := fun xs =>
    "[" ++ ",".intercalate (xs.map text) ++ "]"
  match v with
  | .nil => (some "null", none)
  | .slice xs => (some (row xs), none)
  | .slice2 rows => (some ("[" ++ ",".intercalate (rows.map row) ++ "]"), none)

/-- The value stored for one element: its text when present, nil otherwise. -/
def elementValue (e : Text) : Option String :=
  if e.Status = Status.Present then some e.String else none

/-- Every row of `x` has length `c`. -/
def Uniform {β : Type} (c : Nat) (x : List (List β)) : Prop :=
  ∀ row ∈ x, row.length = c

/-! ## Run-time lemmas -/

theorem make_natCast {β : Type} (n : Nat) (zero : β) :
    make (n : Int) zero = .ok (List.replicate n zero) := by
  simp [make]

theorem make_of_nonneg {β : Type} {n : Int} (zero : β) (h : 0 ≤ n) :
    make n zero = .ok (List.replicate n.toNat zero) := by
  simp [make, not_lt.mpr h]

theorem make_of_neg {β : Type} {n : Int} (zero : β) (h : n < 0) :
    make n zero = .error .makesliceLenOutOfRange := by
  simp [make, h]

theorem index_natCast_lt {β : Type} (xs : List β) (i : Nat) (h : i < xs.length) :
    index xs (i : Int) = .ok xs[i] := by
  simp [index, List.getElem?_eq_getElem h]

theorem index_natCast_ge {β : Type} (xs : List β) (i : Nat) (h : xs.length ≤ i) :
    index xs (i : Int) = .error .indexOutOfRange := by
  simp [index, List.getElem?_eq_none h]

theorem store_natCast_lt {β : Type} (xs : List β) (i : Nat) (v : β) (h : i < xs.length) :
    store xs (i : Int) v = .ok (xs.set i v) := by
  simp [store, h]

theorem store_append_cons {β : Type} (pre : List β) (old : β) (suf : List β) (v : β) :
    store (pre ++ old :: suf) (pre.length : Int) v = .ok (pre ++ v :: suf) := by
  rw [store_natCast_lt _ _ _ (by simp)]
  simp

theorem goDiv_natCast (i c : Nat) (hc : 0 < c) :
    goDiv (i : Int) (c : Int) = .ok ((i / c : Nat) : Int) := by
  have : (c : Int) ≠ 0 := by omega
  rw [goDiv, if_neg this, Int.ofNat_tdiv]

theorem goMod_natCast (i c : Nat) (hc : 0 < c) :
    goMod (i : Int) (c : Int) = .ok ((i % c : Nat) : Int) := by
  have : (c : Int) ≠ 0 := by omega
  rw [goMod, if_neg this, Int.ofNat_tmod]

/-! ## The dimension extractor -/

theorem extractLoop_spec (rest : List ArrayDimension) :
    ∀ (pre suf : List Int), suf.length = rest.length →
      extractLoop pre.length rest (pre ++ suf) = .ok (pre ++ rest.map ArrayDimension.Length) := by
  induction rest with
  | nil =>
    intro pre suf h
    have : suf = [] := List.length_eq_zero.mp (by simpa using h)
    simp [extractLoop, this]
  | cons d rest ih =>
    intro pre suf h
    cases suf with
    | nil => simp at h
    | cons s suf =>
      have hlen : suf.length = rest.length := by simpa using h
      have step := ih (pre ++ [d.Length]) suf hlen
      simp only [List.length_append, List.length_singleton, List.append_assoc,
        List.singleton_append] at step
      simp only [extractLoop, store_append_cons, List.map_cons]
      exact step

theorem extractSubDimensions_eq (dims : List ArrayDimension) :
    extractSubDimensions dims = .ok (dims.map ArrayDimension.Length) := by
  have h := extractLoop_spec dims [] (List.replicate dims.length (0 : Int)) (by simp)
  simp only [List.length_nil, List.nil_append] at h
  simp only [extractSubDimensions, make_natCast]
  exact h

/-! ## The element loop of `MarshalJSON` -/

theorem elementsLoop_spec (rest : List Text) :
    ∀ (pre suf : List (Option String)), suf = List.replicate rest.length none →
      elementsLoop pre.length rest (pre ++ suf) = .ok (pre ++ rest.map elementValue) := by
  induction rest with
  | nil =>
    intro pre suf h
    simp [elementsLoop, h]
  | cons e rest ih =>
    intro pre suf h
    subst h
    have step := ih (pre ++ [elementValue e]) (List.replicate rest.length none) rfl
    simp only [List.length_append, List.length_singleton, List.append_assoc,
      List.singleton_append] at step
    simp only [List.length_cons, List.replicate_succ, List.map_cons]
    cases hs : e.Status <;>
      simp [elementsLoop, notNull, hs, store_append_cons] <;>
      simpa [elementValue, hs] using step

theorem marshalElements_eq (a : TextArray) :
    marshalElements a = .ok (a.Elements.map elementValue) := by
  have h := elementsLoop_spec a.Elements [] (List.replicate a.Elements.length none) rfl
  simp only [List.length_nil, List.nil_append] at h
  simp only [marshalElements, make_natCast]
  exact h

/-! ## Rows of equal length -/

theorem uniform_replicate {β : Type} (n c : Nat) (v : β) :
    Uniform c (List.replicate n (List.replicate c v)) := by
  intro row hrow
  rw [(List.mem_replicate.mp hrow).2]
  simp

theorem uniform_length_flatten {β : Type} (c : Nat) (x : List (List β)) (hx : Uniform c x) :
    x.flatten.length = x.length * c := by
  induction x with
  | nil => simp
  | cons row xs ih =>
    have hrow : row.length = c := hx row (by simp)
    have hxs : Uniform c xs := fun r hr => hx r (by simp [hr])
    simp only [List.flatten_cons, List.length_append, List.length_cons, ih hxs, hrow]
    ring

/-- Reading cell `(k / c, k % c)` of rows of length `c` is reading position `k`
of their concatenation. -/
theorem uniform_cell {β : Type} (c : Nat) (hc : 0 < c) (x : List (List β)) :
    Uniform c x → ∀ k : Nat,
      (x[k / c]?).bind (fun row => row[k % c]?) = x.flatten[k]? := by
  induction x with
  | nil => intro _ k; simp
  | cons row xs ih =>
    intro hx k
    have hrow : row.length = c := hx row (by simp)
    have hxs : Uniform c xs := fun r hr => hx r (by simp [hr])
    by_cases hk : k < c
    · have h0 : k / c = 0 := Nat.div_eq_of_lt hk
      have h1 : k % c = k := Nat.mod_eq_of_lt hk
      rw [h0, h1, List.flatten_cons, List.getElem?_append_left (by omega)]
      simp
    · have hk2 : k = (k - c) + c := by omega
      have h0 : k / c = (k - c) / c + 1 := by
        conv_lhs => rw [hk2]
        exact Nat.add_div_right _ hc
      have h1 : k % c = (k - c) % c := by
        conv_lhs => rw [hk2]
        exact Nat.add_mod_right _ _
      rw [h0, h1, List.flatten_cons, List.getElem?_append_right (by omega), hrow]
      simpa using ih hxs (k - c)

/-- Writing cell `(i / c, i % c)` of rows of length `c` is writing position `i`
of their concatenation. -/
theorem uniform_set_cell {β : Type} (c : Nat) (hc : 0 < c) (e : β) (x : List (List β)) :
    Uniform c x → ∀ i : Nat,
      (x.set (i / c) (((x[i / c]?).getD []).set (i % c) e)).flatten = x.flatten.set i e := by
  induction x with
  | nil => intro _ i; simp
  | cons row xs ih =>
    intro hx i
    have hrow : row.length = c := hx row (by simp)
    have hxs : Uniform c xs := fun r hr => hx r (by simp [hr])
    by_cases hi : i < c
    · have h0 : i / c = 0 := Nat.div_eq_of_lt hi
      have h1 : i % c = i := Nat.mod_eq_of_lt hi
      rw [h0, h1]
      simp [List.set_append_left _ _ (show i < row.length by omega)]
    · have hi2 : i = (i - c) + c := by omega
      have h0 : i / c = (i - c) / c + 1 := by
        conv_lhs => rw [hi2]
        exact Nat.add_div_right _ hc
      have h1 : i % c = (i - c) % c := by
        conv_lhs => rw [hi2]
        exact Nat.add_mod_right _ _
      rw [h0, h1, List.flatten_cons, List.set_append_right _ _ (show row.length ≤ i by omega), hrow]
      simpa using ih hxs (i - c)

theorem uniform_set {β : Type} (c : Nat) (x : List (List β)) (j : Nat) (row : List β)
    (hx : Uniform c x) (hrow : row.length = c) : Uniform c (x.set j row) := by
  intro r hr
  rcases List.mem_or_eq_of_mem_set hr with h | h
  · exact hx r h
  · rw [h, hrow]

/-! ## The loops of `reconstruct2D` -/

theorem rowsLoop_spec {α : Type} (dimensions : List Int) (c : Nat)
    (h1 : index dimensions 1 = .ok (c : Int)) :
    ∀ (todo : Nat) (pre suf : List (List (Option α))), suf.length = todo →
      rowsLoop dimensions todo pre.length (pre ++ suf)
        = .ok (pre ++ List.replicate todo (List.replicate c none)) := by
  intro todo
  induction todo with
  | zero =>
    intro pre suf h
    have : suf = [] := List.length_eq_zero.mp h
    simp [rowsLoop, this]
  | succ todo ih =>
    intro pre suf h
    cases suf with
    | nil => simp at h
    | cons s suf =>
      have hlen : suf.length = todo := by simpa using h
      have step := ih (pre ++ [List.replicate c none]) suf hlen
      simp only [List.length_append, List.length_singleton, List.append_assoc,
        List.singleton_append] at step
      simp only [rowsLoop, h1, make_natCast, store_append_cons, List.replicate_succ]
      exact step

/-- One iteration of the second loop, on rows of length `c`, at an index inside
the `x.length * c` cells. -/
theorem fill_step {α : Type} (c : Nat) (hc : 0 < c) (e : Option α) (x : List (List (Option α)))
    (hx : Uniform c x) (i : Nat) (hi : i < x.length * c) (rest : List (Option α)) :
    ∃ x1, fillLoop (c : Int) i (e :: rest) x = fillLoop (c : Int) (i + 1) rest x1 ∧
      x1.length = x.length ∧ Uniform c x1 ∧ x1.flatten = x.flatten.set i e := by
  have hrowidx : i / c < x.length := by
    rw [Nat.div_lt_iff_lt_mul hc]; exact hi
  have hcol : i % c < c := Nat.mod_lt _ hc
  have hrowlen : x[i / c].length = c := hx _ (List.getElem_mem _)
  refine ⟨x.set (i / c) (x[i / c].set (i % c) e), ?_, by simp, ?_, ?_⟩
  · simp only [fillLoop, goDiv_natCast i c hc, goMod_natCast i c hc,
      index_natCast_lt x (i / c) hrowidx,
      store_natCast_lt x[i / c] (i % c) e (by omega),
      store_natCast_lt x (i / c) _ hrowidx]
  · exact uniform_set c x _ _ hx (by simp [hrowlen])
  · have h := uniform_set_cell c hc e x hx i
    rw [List.getElem?_eq_getElem hrowidx] at h
    simpa using h

theorem fillLoop_spec {α : Type} (c : Nat) (hc : 0 < c) (rest : List (Option α)) :
    ∀ (i : Nat) (x : List (List (Option α))) (pre suf : List (Option α)),
      Uniform c x → x.flatten = pre ++ suf → pre.length = i → rest.length ≤ suf.length →
      ∃ x1, fillLoop (c : Int) i rest x = .ok x1 ∧ x1.length = x.length ∧ Uniform c x1 ∧
        x1.flatten = pre ++ rest ++ suf.drop rest.length := by
  induction rest with
  | nil =>
    intro i x pre suf hx hflat _ _
    exact ⟨x, by simp [fillLoop], rfl, hx, by simpa using hflat⟩
  | cons e rest ih =>
    intro i x pre suf hx hflat hpre hlen
    cases suf with
    | nil => simp at hlen
    | cons s suf =>
      have hi : i < x.length * c := by
        rw [← uniform_length_flatten c x hx, hflat]
        simp; omega
      obtain ⟨x1, hstep, hlen1, hx1, hflat1⟩ := fill_step c hc e x hx i hi rest
      have hflat2 : x1.flatten = (pre ++ [e]) ++ suf := by
        rw [hflat1, hflat, ← hpre]
        simp
      obtain ⟨x2, hrun, hlen2, hx2, hflat3⟩ :=
        ih (i + 1) x1 (pre ++ [e]) suf hx1 hflat2 (by simp [hpre]) (by simpa using hlen)
      exact ⟨x2, by rw [hstep, hrun], by rw [hlen2, hlen1], hx2, by simpa using hflat3⟩

theorem fillLoop_overrun {α : Type} (c : Nat) (hc : 0 < c) (rest : List (Option α)) :
    ∀ (i : Nat) (x : List (List (Option α))),
      Uniform c x → i ≤ x.length * c → x.length * c < i + rest.length →
      fillLoop (c : Int) i rest x = .error .indexOutOfRange := by
  induction rest with
  | nil => intro i x _ h1 h2; simp at h2; omega
  | cons e rest ih =>
    intro i x hx h1 h2
    by_cases hi : i < x.length * c
    · obtain ⟨x1, hstep, hlen1, hx1, _⟩ := fill_step c hc e x hx i hi rest
      rw [hstep]
      apply ih (i + 1) x1 hx1
      · rw [hlen1]; omega
      · rw [hlen1]; simp at h2; omega
    · have hrow : x.length ≤ i / c := by
        rw [Nat.le_div_iff_mul_le hc]; omega
      simp only [fillLoop, goDiv_natCast i c hc, goMod_natCast i c hc,
        index_natCast_ge x (i / c) hrow]

theorem fillLoop_zero_width {α : Type} (i : Nat) (e : Option α) (rest : List (Option α))
    (x : List (List (Option α))) :
    fillLoop (0 : Int) i (e :: rest) x = .error .integerDivideByZero := by
  simp [fillLoop, goDiv]

/-! ## `reconstruct2D` on a shape of two non-negative lengths -/

theorem reconstruct2D_unfold {α : Type} (E : List (Option α)) (r c : Nat) :
    reconstruct2D E [(r : Int), (c : Int)]
      = fillLoop (c : Int) 0 E (List.replicate r (List.replicate c none)) := by
  have h1 : index [(r : Int), (c : Int)] 1 = .ok (c : Int) := by
    simp [index]
  have h0 : index [(r : Int), (c : Int)] 0 = .ok (r : Int) := by
    simp [index]
  have hrows := rowsLoop_spec (α := α) [(r : Int), (c : Int)] c h1 r []
    (List.replicate r []) (by simp)
  simp only [List.length_nil, List.nil_append] at hrows
  simp only [reconstruct2D, h0, h1, make_natCast, Int.toNat_ofNat, hrows]

/-- With at most `r * c` elements and `c > 0` the call returns `r` rows of
length `c` whose concatenation is `E` followed by nils. -/
theorem reconstruct2D_fits {α : Type} (E : List (Option α)) (r c : Nat) (hc : 0 < c)
    (hlen : E.length ≤ r * c) :
    ∃ rows, reconstruct2D E [(r : Int), (c : Int)] = .ok rows ∧ rows.length = r ∧
      Uniform c rows ∧ rows.flatten = E ++ List.replicate (r * c - E.length) none := by
  obtain ⟨x1, hrun, hlen1, hx1, hflat⟩ :=
    fillLoop_spec c hc E 0 (List.replicate r (List.replicate c none)) []
      (List.replicate (r * c) none) (uniform_replicate r c none) (by simp) rfl (by simpa using hlen)
  refine ⟨x1, by rw [reconstruct2D_unfold, hrun], by simpa using hlen1, hx1, ?_⟩
  simpa using hflat

theorem reconstruct2D_overrun {α : Type} (E : List (Option α)) (r c : Nat) (hc : 0 < c)
    (hlen : r * c < E.length) :
    reconstruct2D E [(r : Int), (c : Int)] = .error .indexOutOfRange := by
  rw [reconstruct2D_unfold]
  exact fillLoop_overrun c hc E 0 _ (uniform_replicate r c none) (by simp) (by simpa using hlen)

theorem reconstruct2D_zero_width {α : Type} (E : List (Option α)) (r : Nat) :
    reconstruct2D E [(r : Int), (0 : Int)]
      = if E.length = 0 then .ok (List.replicate r []) else .error .integerDivideByZero := by
  have h := reconstruct2D_unfold E r 0
  simp only [Nat.cast_zero, List.replicate_zero] at h
  rw [h]
  cases E with
  | nil => simp [fillLoop]
  | cons e rest => simp [fillLoop_zero_width]

/-- A value at position `k` of the concatenation of rows of length `c` is the
value of cell `(k / c, k % c)`. -/
theorem uniform_cell_of_flatten {β : Type} (c : Nat) (hc : 0 < c) (x : List (List β))
    (hx : Uniform c x) (k : Nat) (v : β) (hv : x.flatten[k]? = some v) :
    ∃ row, x[k / c]? = some row ∧ row[k % c]? = some v := by
  have hcell := uniform_cell c hc x hx k
  rw [hv] at hcell
  cases hrow : x[k / c]? with
  | none => simp [hrow] at hcell
  | some row => exact ⟨row, rfl, by simpa [hrow] using hcell⟩

/-- On a shape `[r, c]` of non-negative lengths `reconstruct2D` returns rows
exactly when there are at most `r * c` elements; otherwise it faults. -/
theorem reconstruct2D_outcome {α : Type} (E : List (Option α)) (r c : Nat) :
    (E.length ≤ r * c → ∃ rows, reconstruct2D E [(r : Int), (c : Int)] = .ok rows ∧
      rows.length = r ∧ Uniform c rows ∧
      rows.flatten = E ++ List.replicate (r * c - E.length) none) ∧
    (r * c < E.length → reconstruct2D E [(r : Int), (c : Int)]
      = .error (if c = 0 then .integerDivideByZero else .indexOutOfRange)) := by
  rcases Nat.eq_zero_or_pos c with hc | hc
  · subst hc
    have hrun := reconstruct2D_zero_width E r
    simp only [Nat.cast_zero] at *
    constructor
    · intro hle
      have hE : E.length = 0 := by simpa using hle
      rw [if_pos hE] at hrun
      refine ⟨List.replicate r [], hrun, by simp, ?_, ?_⟩
      · intro row hrow
        rw [(List.mem_replicate.mp hrow).2]
        rfl
      · simp [List.length_eq_zero.mp hE]
    · intro hlt
      have hE : E.length ≠ 0 := by
        have : 0 < E.length := by simpa using hlt
        omega
      rw [if_neg hE] at hrun
      simpa using hrun
  · constructor
    · intro hle
      exact reconstruct2D_fits E r c hc hle
    · intro hlt
      rw [if_neg (by omega)]
      exact reconstruct2D_overrun E r c hc hlt

/-! ## `reconstruct` by rank -/

theorem reconstruct_rank0 {α : Type} (E : List (Option α)) :
    reconstruct E [] = .ok (.slice [], none) := by
  simp [reconstruct]

theorem reconstruct_rank1 {α : Type} (E : List (Option α)) (n : Int) :
    reconstruct E [n] = .ok (.slice E, none) := by
  simp [reconstruct]

theorem reconstruct_rank2 {α : Type} (E : List (Option α)) (r c : Int) :
    reconstruct E [r, c] =
      match reconstruct2D E [r, c] with
      | .error f => .error f
      | .ok rows => .ok (.slice2 rows, none) := by
  simp [reconstruct]

theorem reconstruct_rank_ge3 {α : Type} (E : List (Option α)) (S : List Int)
    (h : 3 ≤ S.length) :
    reconstruct E S = .ok (.nil, some (invalidDimension S.length)) := by
  obtain ⟨n, hn⟩ : ∃ n, S.length = n + 3 := ⟨S.length - 3, by omega⟩
  simp [reconstruct, hn]

/-- On a shape of rank at most 2 with non-negative lengths and an element list
of matching length, `reconstruct` returns a value and no error: the empty slice
at rank 0, and at rank 1 and 2 a value as deep as the rank that flattens to the
element list. -/
theorem reconstruct_small_rank {α : Type} (E : List (Option α)) (S : List Int)
    (hrank : S.length ≤ 2) (hnn : ∀ d ∈ S, 0 ≤ d) (hlen : (E.length : Int) = S.prod) :
    ∃ v, reconstruct E S = .ok (v, none) ∧ (S = [] → v = Nested.slice []) ∧
      (S ≠ [] → v.depth = S.length ∧ v.flatten = E) := by
  match S, hrank, hnn, hlen with
  | [], _, _, _ => exact ⟨.slice [], reconstruct_rank0 E, fun _ => rfl, fun h => absurd rfl h⟩
  | [n], _, _, _ =>
    exact ⟨.slice E, reconstruct_rank1 E n, fun h => by simp at h, fun _ => ⟨rfl, rfl⟩⟩
  | [r, c], _, hnn, hlen =>
    obtain ⟨r, rfl⟩ := Int.eq_ofNat_of_zero_le (hnn r (by simp))
    obtain ⟨c, rfl⟩ := Int.eq_ofNat_of_zero_le (hnn c (by simp))
    have hlenN : E.length = r * c := by
      have : (E.length : Int) = (r : Int) * (c : Int) := by simpa using hlen
      exact_mod_cast this
    rcases Nat.eq_zero_or_pos c with hc | hc
    · subst hc
      have hE : E.length = 0 := by simpa using hlenN
      have hnil : E = [] := List.length_eq_zero.mp hE
      have hrun := reconstruct2D_zero_width E r
      rw [if_pos hE] at hrun
      refine ⟨.slice2 (List.replicate r []), ?_, fun h => by simp at h, fun _ => ⟨rfl, ?_⟩⟩
      · rw [reconstruct_rank2]
        simp only [Nat.cast_zero]
        rw [hrun]
      · simp [Nested.flatten, hnil]
    · obtain ⟨rows, hrun, _, _, hflat⟩ := reconstruct2D_fits E r c hc (le_of_eq hlenN)
      refine ⟨.slice2 rows, by rw [reconstruct_rank2, hrun], fun h => by simp at h,
        fun _ => ⟨rfl, ?_⟩⟩
      simp [Nested.flatten, hflat, hlenN]
  | _ :: _ :: _ :: _, h, _, _ => simp at h

/-- At rank at most 2 `reconstruct` never returns an error value. -/
theorem reconstruct_small_rank_no_error {α : Type} (E : List (Option α)) (S : List Int)
    (hrank : S.length ≤ 2) (v : Nested α) (msg : String) :
    reconstruct E S ≠ .ok (v, some msg) := by
  match S, hrank with
  | [], _ => simp [reconstruct_rank0]
  | [n], _ => simp [reconstruct_rank1]
  | [r, c], _ =>
    rw [reconstruct_rank2]
    cases reconstruct2D E [r, c] <;> simp
  | _ :: _ :: _ :: _, h => simp at h

/-! ## Claims -/

/-- C1: for a shape `[r, c]` with `r ≥ 0`, `c > 0` and an element list `E` of
length `r * c`, `reconstruct` succeeds and returns exactly `r` rows, each of
length `c`, with `E[i]` at row `i / c`, column `i % c` for every `i < len(E)`. -/
theorem reconstruct_rank2_row_major {α : Type} (r c : Int) (E : List (Option α))
    (hr : 0 ≤ r) (hc : 0 < c) (hlen : (E.length : Int) = r * c) :
    ∃ rows, reconstruct E [r, c] = .ok (.slice2 rows, none) ∧
      (rows.length : Int) = r ∧
      (∀ row ∈ rows, (row.length : Int) = c) ∧
      ∀ (i : Nat) (hi : i < E.length),
        ∃ row, rows[i / c.toNat]? = some row ∧ row[i % c.toNat]? = some E[i] := by
  obtain ⟨r, rfl⟩ := Int.eq_ofNat_of_zero_le hr
  obtain ⟨c, rfl⟩ := Int.eq_ofNat_of_zero_le (le_of_lt hc)
  have hc0 : 0 < c := by exact_mod_cast hc
  have hlenN : E.length = r * c := by exact_mod_cast hlen
  obtain ⟨rows, hrun, hrows, huni, hflat⟩ := reconstruct2D_fits E r c hc0 (le_of_eq hlenN)
  refine ⟨rows, by rw [reconstruct_rank2, hrun], by rw [hrows], ?_, ?_⟩
  · intro row hrow
    rw [huni row hrow]
  · intro i hi
    have hcell := uniform_cell c hc0 rows huni i
    rw [hflat, List.getElem?_append_left hi, List.getElem?_eq_getElem hi] at hcell
    simp only [Int.toNat_ofNat]
    cases hrowi : rows[i / c]? with
    | none => simp [hrowi] at hcell
    | some row => exact ⟨row, rfl, by simpa [hrowi] using hcell⟩

/-- C1, the example of the specification: shape `[2, 3]` and the elements
`"1"` to `"6"` give `[["1","2","3"],["4","5","6"]]`. -/
theorem reconstruct_rank2_row_major_witness :
    (0 : Int) ≤ 2 ∧ (0 : Int) < 3 ∧
      (([some "1", some "2", some "3", some "4", some "5", some "6"]
        : List (Option String)).length : Int) = 2 * 3 ∧
      reconstruct [some "1", some "2", some "3", some "4", some "5", some "6"] [2, 3]
        = .ok (.slice2 [[some "1", some "2", some "3"], [some "4", some "5", some "6"]], none) ∧
      ∃ rows, reconstruct [some "1", some "2", some "3", some "4", some "5", some "6"] [2, 3]
          = .ok (.slice2 rows, none) ∧
        (rows.length : Int) = 2 ∧
        (∀ row ∈ rows, (row.length : Int) = 3) ∧
        ∀ (i : Nat) (hi : i < [some "1", some "2", some "3", some "4", some "5", some "6"].length),
          ∃ row, rows[i / (3 : Int).toNat]? = some row ∧
            row[i % (3 : Int).toNat]?
              = some [some "1", some "2", some "3", some "4", some "5", some "6"][i] :=
  ⟨by decide, by decide, by decide, rfl, reconstruct_rank2_row_major 2 3
    [some "1", some "2", some "3", some "4", some "5", some "6"]
    (by decide) (by decide) (by decide)⟩

/-- C2, counterexample: at rank 3 (shape `[1, 1, 1]`, one element) `reconstruct`
returns the error `invalid dimension: 3` and no nested array; at rank 0 with one
element (the empty product is 1) it returns the empty sequence, which does not
flatten to the element list. -/
theorem reconstruct_round_trip_counterexample :
    (([some "a"] : List (Option String)).length : Int) = ([1, 1, 1] : List Int).prod ∧
      reconstruct [some "a"] [1, 1, 1] = .ok (.nil, some "invalid dimension: 3") ∧
      (([some "a"] : List (Option String)).length : Int) = ([] : List Int).prod ∧
      reconstruct [some "a"] [] = .ok (.slice [], none) ∧
      (Nested.slice ([] : List (Option String))).flatten ≠ [some "a"] :=
  ⟨by decide, rfl, by decide, rfl, by decide⟩

/-- C2, amended: for a shape `S` of rank 1 or 2 with non-negative lengths and an
element list `E` with `len(E) = product(S)`, and for the rank-0 shape with the
empty element list, `reconstruct` succeeds and flattening the result yields `E`
unchanged; at rank 1 and 2 the depth of the result is the rank, at rank 0 the
result is the empty sequence. -/
theorem reconstruct_round_trip {α : Type} (E : List (Option α)) (S : List Int)
    (hrank : S.length ≤ 2) (hnn : ∀ d ∈ S, 0 ≤ d)
    (hlen : S ≠ [] → (E.length : Int) = S.prod) (hzero : S = [] → E = []) :
    ∃ v, reconstruct E S = .ok (v, none) ∧ v.flatten = E ∧
      (S ≠ [] → v.depth = S.length) ∧ (S = [] → v = Nested.slice []) := by
  by_cases hS : S = []
  · subst hS
    rw [hzero rfl]
    exact ⟨.slice [], reconstruct_rank0 [], rfl, fun h => absurd rfl h, fun _ => rfl⟩
  · obtain ⟨v, hrun, _, h12⟩ := reconstruct_small_rank E S hrank hnn (hlen hS)
    exact ⟨v, hrun, (h12 hS).2, fun _ => (h12 hS).1, fun h => absurd h hS⟩

/-- C2, amended, on the shape `[2, 3]` with six elements and on the rank-0 shape
with no element. -/
theorem reconstruct_round_trip_witness :
    ([2, 3] : List Int).length ≤ 2 ∧ (∀ d ∈ ([2, 3] : List Int), 0 ≤ d) ∧
      (([some "1", some "2", none, some "4", some "5", some "6"]
        : List (Option String)).length : Int) = ([2, 3] : List Int).prod ∧
      (∃ v, reconstruct [some "1", some "2", none, some "4", some "5", some "6"] [2, 3]
          = .ok (v, none) ∧
        v.flatten = [some "1", some "2", none, some "4", some "5", some "6"] ∧
        (([2, 3] : List Int) ≠ [] → v.depth = ([2, 3] : List Int).length) ∧
        (([2, 3] : List Int) = [] → v = Nested.slice [])) ∧
      ∃ v, reconstruct ([] : List (Option String)) [] = .ok (v, none) ∧
        v.flatten = [] ∧
        (([] : List Int) ≠ [] → v.depth = ([] : List Int).length) ∧
        (([] : List Int) = [] → v = Nested.slice []) :=
  ⟨by decide, by decide, by decide,
    reconstruct_round_trip [some "1", some "2", none, some "4", some "5", some "6"] [2, 3]
      (by decide) (by decide) (fun _ => by decide) (by decide),
    reconstruct_round_trip ([] : List (Option String)) []
      (by decide) (by decide) (fun h => absurd rfl h) (fun _ => rfl)⟩

/-- C3, counterexample: a rank-6 shape `[1, 1, 1, 1, 1, 1]` with one element, the
product of the shape, makes `reconstruct` return the error
`invalid dimension: 6` and no nested structure. -/
theorem reconstruct_error_only_above_six_counterexample :
    ([1, 1, 1, 1, 1, 1] : List Int).length ≤ 6 ∧
      (([some "a"] : List (Option String)).length : Int) = ([1, 1, 1, 1, 1, 1] : List Int).prod ∧
      reconstruct [some "a"] [1, 1, 1, 1, 1, 1] = .ok (.nil, some "invalid dimension: 6") :=
  ⟨by decide, by decide, rfl⟩

/-- C3, amended: `reconstruct` returns an error exactly when the rank is greater
than 2, and then it returns the nil value with the error `invalid dimension: N`,
`N` the rank; for a shape of rank 1 or 2 with non-negative lengths and an
element list whose length is the product of the shape, and for the rank-0 shape
with any element list, it succeeds, with a value as deep as the rank at rank 1
and 2 and the empty sequence at rank 0. -/
theorem reconstruct_error_iff_rank_gt_two {α : Type} (E : List (Option α)) (S : List Int) :
    ((∃ v msg, reconstruct E S = .ok (v, some msg)) ↔ 2 < S.length) ∧
      (2 < S.length →
        reconstruct E S = .ok (.nil, some ("invalid dimension: " ++ toString S.length))) ∧
      (S.length ≤ 2 → (∀ d ∈ S, 0 ≤ d) → (S ≠ [] → (E.length : Int) = S.prod) →
        ∃ v, reconstruct E S = .ok (v, none) ∧
          (S ≠ [] → v.depth = S.length) ∧ (S = [] → v = Nested.slice [])) := by
  refine ⟨⟨?_, ?_⟩, ?_, ?_⟩
  · rintro ⟨v, msg, h⟩
    by_contra hle
    exact reconstruct_small_rank_no_error E S (by omega) v msg h
  · intro h
    exact ⟨.nil, invalidDimension S.length, reconstruct_rank_ge3 E S (by omega)⟩
  · intro h
    rw [reconstruct_rank_ge3 E S (by omega)]
    rfl
  · intro hrank hnn hlen
    by_cases hS : S = []
    · subst hS
      exact ⟨.slice [], reconstruct_rank0 E, fun h => absurd rfl h, fun _ => rfl⟩
    · obtain ⟨v, hrun, _, h12⟩ := reconstruct_small_rank E S hrank hnn (hlen hS)
      exact ⟨v, hrun, fun _ => (h12 hS).1, fun h => absurd h hS⟩

/-- C3, amended, on a rank-6 shape, on the shape `[2, 2]` with four elements and
on the rank-0 shape with no element. -/
theorem reconstruct_error_iff_rank_gt_two_witness :
    reconstruct [some "a"] [1, 1, 1, 1, 1, 1] = .ok (.nil, some "invalid dimension: 6") ∧
      (∃ v, reconstruct [some "a", some "b", none, some "d"] [2, 2] = .ok (v, none) ∧
        (([2, 2] : List Int) ≠ [] → v.depth = ([2, 2] : List Int).length) ∧
        (([2, 2] : List Int) = [] → v = Nested.slice [])) ∧
      ∃ v, reconstruct ([] : List (Option String)) [] = .ok (v, none) ∧
        (([] : List Int) ≠ [] → v.depth = ([] : List Int).length) ∧
        (([] : List Int) = [] → v = Nested.slice []) :=
  ⟨(reconstruct_error_iff_rank_gt_two [some "a"] [1, 1, 1, 1, 1, 1]).2.1 (by decide),
    (reconstruct_error_iff_rank_gt_two [some "a", some "b", none, some "d"] [2, 2]).2.2
      (by decide) (by decide) (fun _ => by decide),
    (reconstruct_error_iff_rank_gt_two ([] : List (Option String)) []).2.2
      (by decide) (by decide) (fun h => absurd rfl h)⟩

/-- C4: for a shape of rank `N > 6` and any element list, `reconstruct` returns
the nil value together with the error `invalid dimension: N`. -/
theorem reconstruct_rank_gt6_error {α : Type} (E : List (Option α)) (S : List Int)
    (h : 6 < S.length) :
    reconstruct E S = .ok (.nil, some ("invalid dimension: " ++ toString S.length)) := by
  rw [reconstruct_rank_ge3 E S (by omega)]
  rfl

/-- C4 at rank 7: the message reads `invalid dimension: 7`. -/
theorem reconstruct_rank_gt6_error_witness :
    6 < ([1, 1, 1, 1, 1, 1, 1] : List Int).length ∧
      reconstruct [some "a"] [1, 1, 1, 1, 1, 1, 1]
        = .ok (.nil, some "invalid dimension: 7") :=
  ⟨by decide, reconstruct_rank_gt6_error [some "a"] [1, 1, 1, 1, 1, 1, 1] (by decide)⟩

/-- C5: for every element list `E`, `reconstruct(E, [])` succeeds and returns the
empty sequence, in which no element of `E` appears. -/
theorem reconstruct_rank0_empty {α : Type} (E : List (Option α)) :
    ∃ v, reconstruct E [] = .ok (v, none) ∧ v = Nested.slice [] ∧
      ∀ e ∈ E, e ∉ v.flatten := by
  refine ⟨.slice [], reconstruct_rank0 E, rfl, ?_⟩
  intro e _
  simp [Nested.flatten]

/-- C5 on the empty element list and on a non-empty one. -/
theorem reconstruct_rank0_empty_witness :
    reconstruct ([] : List (Option String)) [] = .ok (.slice [], none) ∧
      ∃ v, reconstruct [some "a", none] [] = .ok (v, none) ∧ v = Nested.slice [] ∧
        ∀ e ∈ [some "a", none], e ∉ v.flatten :=
  ⟨rfl, reconstruct_rank0_empty [some "a", none]⟩

/-- C6: for every element list `E` and every rank-1 shape `[n]`, whatever `n` is,
`reconstruct(E, [n])` succeeds and returns `E` itself. -/
theorem reconstruct_rank1_identity {α : Type} (E : List (Option α)) (n : Int) :
    reconstruct E [n] = .ok (.slice E, none) :=
  reconstruct_rank1 E n

/-- C6, the example of the specification: shape `[3]` and `["a", null, "c"]`. -/
theorem reconstruct_rank1_identity_witness :
    reconstruct [some "a", none, some "c"] [3] = .ok (.slice [some "a", none, some "c"], none) :=
  reconstruct_rank1_identity [some "a", none, some "c"] 3

/-- C7: the flat value list that `MarshalJSON` builds has the length of
`a.Elements`, and its `i`-th entry is the element's text when the element's status
is `Present` and nil when it is `Null` or `Undefined`. -/
theorem marshalElements_null_preservation (a : TextArray) :
    ∃ vs, marshalElements a = .ok vs ∧ vs.length = a.Elements.length ∧
      ∀ (i : Nat) (hi : i < a.Elements.length),
        (a.Elements[i].Status = Status.Present → vs[i]? = some (some a.Elements[i].String)) ∧
        (a.Elements[i].Status = Status.Null → vs[i]? = some none) ∧
        (a.Elements[i].Status = Status.Undefined → vs[i]? = some none) := by
  refine ⟨a.Elements.map elementValue, marshalElements_eq a, by simp, ?_⟩
  intro i hi
  refine ⟨?_, ?_, ?_⟩ <;> intro hs <;> simp [List.getElem?_eq_getElem hi, elementValue, hs]

/-- C7 on a present, a null and an undefined element, each carrying a text. -/
theorem marshalElements_null_preservation_witness :
    marshalElements ⟨[⟨"a", Status.Present⟩, ⟨"b", Status.Null⟩, ⟨"c", Status.Undefined⟩], []⟩
        = .ok [some "a", none, none] ∧
      ∃ vs, marshalElements
            ⟨[⟨"a", Status.Present⟩, ⟨"b", Status.Null⟩, ⟨"c", Status.Undefined⟩], []⟩ = .ok vs ∧
        vs.length = 3 :=
  ⟨rfl,
    (marshalElements_null_preservation
      ⟨[⟨"a", Status.Present⟩, ⟨"b", Status.Null⟩, ⟨"c", Status.Undefined⟩], []⟩).imp
      (fun _ h => ⟨h.1, h.2.1⟩)⟩

/-- C8: for every sequence of dimension records, the empty one included,
`extractSubDimensions` succeeds and returns a sequence of the same length whose
`i`-th entry is the `Length` of the `i`-th record; replacing the `LowerBound` of
the records by anything else does not change the result. -/
theorem extractSubDimensions_lengths (dims : List ArrayDimension) :
    ∃ ds, extractSubDimensions dims = .ok ds ∧ ds.length = dims.length ∧
      (∀ (i : Nat) (hi : i < dims.length), ds[i]? = some dims[i].Length) ∧
      ∀ lower : ArrayDimension → Int,
        extractSubDimensions (dims.map fun d => { d with LowerBound := lower d }) = .ok ds := by
  refine ⟨dims.map ArrayDimension.Length, extractSubDimensions_eq dims, by simp, ?_, ?_⟩
  · intro i hi
    simp [List.getElem?_eq_getElem hi]
  · intro lower
    rw [extractSubDimensions_eq]
    simp [Function.comp_def]

/-- C8 on the empty sequence and on two records. -/
theorem extractSubDimensions_lengths_witness :
    extractSubDimensions [] = .ok [] ∧
      extractSubDimensions [⟨2, 1⟩, ⟨3, -5⟩] = .ok [2, 3] ∧
      ∃ ds, extractSubDimensions [⟨2, 1⟩, ⟨3, -5⟩] = .ok ds ∧ ds.length = 2 :=
  ⟨rfl, rfl, (extractSubDimensions_lengths [⟨2, 1⟩, ⟨3, -5⟩]).imp (fun _ h => ⟨h.1, h.2.1⟩)⟩

/-- C9, counterexample: shape `[1, 2]` with the single element `"a"` (1 ≠ 1 * 2)
neither faults nor drops an element; the result is `[["a", null]]`. -/
theorem reconstruct2D_mismatch_counterexample :
    (([some "a"] : List (Option String)).length : Int) ≠ 1 * 2 ∧
      reconstruct2D [some "a"] [1, 2] = .ok [[some "a", none]] ∧
      ∀ e ∈ [some "a"], e ∈ ([[some "a", none]] : List (List (Option String))).flatten :=
  ⟨by decide, rfl, by decide⟩

/-- C9, amended: for a shape `[r, c]` with `r, c ≥ 0` and `len(E) ≠ r * c`, either
`len(E) > r * c` and the rank-2 reconstruction faults (an index out of range
when `c > 0`, an integer division by zero when `c = 0`), or `len(E) < r * c` and
it returns `r` rows of length `c` that hold every element, `E[i]` at row
`i / c`, column `i % c`. -/
theorem reconstruct2D_mismatch {α : Type} (r c : Int) (E : List (Option α))
    (hr : 0 ≤ r) (hc : 0 ≤ c) (hne : (E.length : Int) ≠ r * c) :
    (r * c < (E.length : Int) ∧
        reconstruct2D E [r, c]
          = .error (if c = 0 then .integerDivideByZero else .indexOutOfRange)) ∨
      ((E.length : Int) < r * c ∧
        ∃ rows, reconstruct2D E [r, c] = .ok rows ∧ (rows.length : Int) = r ∧
          (∀ row ∈ rows, (row.length : Int) = c) ∧
          ∀ (i : Nat) (hi : i < E.length),
            ∃ row, rows[i / c.toNat]? = some row ∧ row[i % c.toNat]? = some E[i]) := by
  obtain ⟨r, rfl⟩ := Int.eq_ofNat_of_zero_le hr
  obtain ⟨c, rfl⟩ := Int.eq_ofNat_of_zero_le hc
  have hneN : E.length ≠ r * c := by
    intro h
    exact hne (by exact_mod_cast h)
  rcases Nat.eq_zero_or_pos c with hc0 | hc0
  · subst hc0
    have hpos : E.length ≠ 0 := by simpa using hneN
    left
    refine ⟨by simp; omega, ?_⟩
    have hrun := reconstruct2D_zero_width E r
    rw [if_neg hpos] at hrun
    simpa using hrun
  · have hcz : (c : Int) ≠ 0 := by omega
    rcases Nat.lt_or_gt_of_ne hneN with hlt | hgt
    · right
      obtain ⟨rows, hrun, hrows, huni, hflat⟩ := reconstruct2D_fits E r c hc0 (le_of_lt hlt)
      refine ⟨by exact_mod_cast hlt, rows, hrun, by rw [hrows], ?_, ?_⟩
      · intro row hrow
        rw [huni row hrow]
      · intro i hi
        have hcell := uniform_cell c hc0 rows huni i
        rw [hflat, List.getElem?_append_left hi, List.getElem?_eq_getElem hi] at hcell
        simp only [Int.toNat_ofNat]
        cases hrowi : rows[i / c]? with
        | none => simp [hrowi] at hcell
        | some row => exact ⟨row, rfl, by simpa [hrowi] using hcell⟩
    · left
      refine ⟨by exact_mod_cast hgt, ?_⟩
      rw [if_neg hcz]
      exact reconstruct2D_overrun E r c hc0 hgt

/-- C9, amended, on shape `[1, 2]` with three elements: an index out of range. -/
theorem reconstruct2D_mismatch_witness :
    (0 : Int) ≤ 1 ∧ (0 : Int) ≤ 2 ∧
      (([some "a", some "b", some "c"] : List (Option String)).length : Int) ≠ 1 * 2 ∧
      reconstruct2D [some "a", some "b", some "c"] [1, 2] = .error .indexOutOfRange ∧
      ((1 * 2 < (([some "a", some "b", some "c"] : List (Option String)).length : Int) ∧
          reconstruct2D [some "a", some "b", some "c"] [1, 2]
            = .error (if (2 : Int) = 0 then .integerDivideByZero else .indexOutOfRange)) ∨
        ((([some "a", some "b", some "c"] : List (Option String)).length : Int) < 1 * 2 ∧
          ∃ rows, reconstruct2D [some "a", some "b", some "c"] [1, 2] = .ok rows ∧
            (rows.length : Int) = 1 ∧
            (∀ row ∈ rows, (row.length : Int) = 2) ∧
            ∀ (i : Nat) (hi : i < [some "a", some "b", some "c"].length),
              ∃ row, rows[i / (2 : Int).toNat]? = some row ∧
                row[i % (2 : Int).toNat]? = some [some "a", some "b", some "c"][i])) :=
  ⟨by decide, by decide, by decide, rfl,
    reconstruct2D_mismatch 1 2 [some "a", some "b", some "c"]
      (by decide) (by decide) (by decide)⟩

/-- C10, counterexample: a record of `Length` 0 gives the shape entry 0, which
is not positive. -/
theorem extractSubDimensions_positive_counterexample :
    extractSubDimensions [⟨0, 1⟩] = .ok [0] ∧ ¬ ∀ n ∈ ([0] : List Int), 0 < n :=
  ⟨rfl, by decide⟩

/-- C10, amended: the returned shape is the sequence of the `Length` fields of
the records, each entry equal to the `Length` of its record, unchanged; so the
entries are all positive exactly when every record has a positive `Length`. -/
theorem extractSubDimensions_positive_iff (dims : List ArrayDimension) :
    ∃ ds, extractSubDimensions dims = .ok ds ∧
      ds = dims.map ArrayDimension.Length ∧
      ds.length = dims.length ∧
      (∀ (i : Nat) (hi : i < dims.length), ds[i]? = some dims[i].Length) ∧
      ((∀ n ∈ ds, 0 < n) ↔ ∀ d ∈ dims, 0 < d.Length) := by
  refine ⟨dims.map ArrayDimension.Length, extractSubDimensions_eq dims, rfl, by simp, ?_, ?_⟩
  · intro i hi
    simp [List.getElem?_eq_getElem hi]
  · simp

/-- C10, amended, on records of positive `Length` and on a record of `Length` 0. -/
theorem extractSubDimensions_positive_iff_witness :
    (∃ ds, extractSubDimensions [⟨2, 1⟩, ⟨3, 1⟩] = .ok ds ∧ ds = [2, 3] ∧ ∀ n ∈ ds, 0 < n) ∧
      ∃ ds, extractSubDimensions [⟨0, 1⟩, ⟨5, 1⟩] = .ok ds ∧ ds = [0, 5] ∧
        ¬ ∀ n ∈ ds, 0 < n := by
  constructor
  · obtain ⟨ds, hds, hmap, _, _, hiff⟩ := extractSubDimensions_positive_iff [⟨2, 1⟩, ⟨3, 1⟩]
    exact ⟨ds, hds, hmap, hiff.mpr (by decide)⟩
  · obtain ⟨ds, hds, hmap, _, _, hiff⟩ := extractSubDimensions_positive_iff [⟨0, 1⟩, ⟨5, 1⟩]
    exact ⟨ds, hds, hmap, fun h => absurd (hiff.mp h) (by decide)⟩

/-- C11: with `elements` the flat value list and `dimensions` the extracted
shape, `MarshalJSON` returns no bytes and an error wrapping `err` with the
message `reconstructing array failed: ` followed by `err` when `reconstruct`
returns the error `err`, and returns what `json.Marshal` returns on the
reconstructed value otherwise; so, `json.Marshal` not failing, `MarshalJSON`
returns an error exactly when `reconstruct` does. -/
theorem MarshalJSON_fails_iff_reconstruct_fails {B : Type}
    (jsonMarshal : Nested String → Option B × Option GoError) (a : TextArray) :
    ∃ elements dimensions,
      marshalElements a = .ok elements ∧ extractSubDimensions a.Dimensions = .ok dimensions ∧
      (∀ v err, reconstruct elements dimensions = .ok (v, some err) →
        MarshalJSON jsonMarshal a
          = .ok (none, some ⟨"reconstructing array failed: " ++ err, some err⟩)) ∧
      (∀ v, reconstruct elements dimensions = .ok (v, none) →
        MarshalJSON jsonMarshal a = .ok (jsonMarshal v)) ∧
      ((∀ v, (jsonMarshal v).2 = none) →
        ((∃ bytes e, MarshalJSON jsonMarshal a = .ok (bytes, some e)) ↔
          ∃ v err, reconstruct elements dimensions = .ok (v, some err))) := by
  refine ⟨a.Elements.map elementValue, a.Dimensions.map ArrayDimension.Length,
    marshalElements_eq a, extractSubDimensions_eq a.Dimensions, ?_, ?_, ?_⟩
  · intro v err h
    simp [MarshalJSON, marshalElements_eq, extractSubDimensions_eq, h, reconstructingFailed]
  · intro v h
    simp [MarshalJSON, marshalElements_eq, extractSubDimensions_eq, h]
  · intro hjson
    constructor
    · rintro ⟨bytes, e, h⟩
      simp only [MarshalJSON, marshalElements_eq, extractSubDimensions_eq] at h
      cases hrec : reconstruct (a.Elements.map elementValue)
          (a.Dimensions.map ArrayDimension.Length) with
      | error p => simp [hrec] at h
      | ok res =>
        obtain ⟨v, err⟩ := res
        cases err with
        | some msg => exact ⟨v, msg, rfl⟩
        | none =>
          simp only [hrec] at h
          have h2 := hjson v
          have h3 : jsonMarshal v = (bytes, some e) := by
            injection h
          rw [h3] at h2
          simp at h2
    · rintro ⟨v, err, h⟩
      exact ⟨none, reconstructingFailed err, by
        simp [MarshalJSON, marshalElements_eq, extractSubDimensions_eq, h]⟩

/-- C11 on a rank-3 array, whose reconstruction fails, and on a rank-1 array. -/
theorem MarshalJSON_fails_iff_reconstruct_fails_witness :
    MarshalJSON sampleMarshal ⟨[⟨"1", Status.Present⟩], [⟨1, 1⟩, ⟨1, 1⟩, ⟨1, 1⟩]⟩
        = .ok (none, some ⟨"reconstructing array failed: invalid dimension: 3",
            some "invalid dimension: 3"⟩) ∧
      MarshalJSON sampleMarshal ⟨[⟨"1", Status.Present⟩, ⟨"x", Status.Null⟩], [⟨2, 1⟩]⟩
        = .ok (some "[\"1\",null]", none) ∧
      (∀ v, (sampleMarshal v).2 = none) ∧
      ((∃ bytes e, MarshalJSON sampleMarshal
            ⟨[⟨"1", Status.Present⟩], [⟨1, 1⟩, ⟨1, 1⟩, ⟨1, 1⟩]⟩ = .ok (bytes, some e)) ↔
        ∃ v err, reconstruct [some "1"] [1, 1, 1] = .ok (v, some err)) := by
  have hsample : ∀ v, (sampleMarshal v).2 = none := by
    intro v
    cases v <;> rfl
  refine ⟨rfl, rfl, hsample, ?_⟩
  obtain ⟨elements, dimensions, h1, h2, _, _, hiff⟩ :=
    MarshalJSON_fails_iff_reconstruct_fails sampleMarshal
      ⟨[⟨"1", Status.Present⟩], [⟨1, 1⟩, ⟨1, 1⟩, ⟨1, 1⟩]⟩
  have he : elements = [some "1"] := by
    have h := h1.symm.trans
      (rfl : marshalElements ⟨[⟨"1", Status.Present⟩], [⟨1, 1⟩, ⟨1, 1⟩, ⟨1, 1⟩]⟩
        = .ok [some "1"])
    injection h
  have hd : dimensions = [1, 1, 1] := by
    have h := h2.symm.trans
      (rfl : extractSubDimensions [⟨1, 1⟩, ⟨1, 1⟩, ⟨1, 1⟩] = .ok [1, 1, 1])
    injection h
  subst he hd
  exact hiff hsample

/-- C12: for `r ≥ 0`, `c ≥ 0` and an element list `E` of length `r * c`,
`reconstruct2D` returns rows whose concatenation, in order, is `E`; this
includes `r = 0` and `c = 0`, where `E` is empty. -/
theorem reconstruct2D_round_trip {α : Type} (r c : Int) (E : List (Option α))
    (hr : 0 ≤ r) (hc : 0 ≤ c) (hlen : (E.length : Int) = r * c) :
    ∃ rows, reconstruct2D E [r, c] = .ok rows ∧ rows.flatten = E := by
  obtain ⟨r, rfl⟩ := Int.eq_ofNat_of_zero_le hr
  obtain ⟨c, rfl⟩ := Int.eq_ofNat_of_zero_le hc
  have hlenN : E.length = r * c := by exact_mod_cast hlen
  obtain ⟨rows, hrun, _, _, hflat⟩ := (reconstruct2D_outcome E r c).1 (le_of_eq hlenN)
  exact ⟨rows, hrun, by simp [hflat, hlenN]⟩

/-- C12 on shape `[2, 2]` with four elements and on shape `[3, 0]` with none. -/
theorem reconstruct2D_round_trip_witness :
    (0 : Int) ≤ 2 ∧
      (([some "a", none, some "c", some "d"] : List (Option String)).length : Int) = 2 * 2 ∧
      reconstruct2D ([] : List (Option String)) [3, 0] = .ok [[], [], []] ∧
      ∃ rows, reconstruct2D [some "a", none, some "c", some "d"] [2, 2] = .ok rows ∧
        rows.flatten = [some "a", none, some "c", some "d"] :=
  ⟨by decide, by decide, rfl,
    reconstruct2D_round_trip 2 2 [some "a", none, some "c", some "d"]
      (by decide) (by decide) (by decide)⟩

/-- C13: for `r ≥ 0`, `c ≥ 0` and any element list `E`, `reconstruct2D` completes
exactly when `len(E) ≤ r * c`, and otherwise stops on an index out of range
(`c > 0`) or on an integer division by zero (`c = 0`); so it completes when
`len(E) = r * c`, and with `c = 0` every non-empty `E` faults. -/
theorem reconstruct2D_safe_iff {α : Type} (r c : Int) (E : List (Option α))
    (hr : 0 ≤ r) (hc : 0 ≤ c) :
    ((∃ rows, reconstruct2D E [r, c] = .ok rows) ↔ (E.length : Int) ≤ r * c) ∧
      (r * c < (E.length : Int) →
        reconstruct2D E [r, c]
          = .error (if c = 0 then .integerDivideByZero else .indexOutOfRange)) ∧
      ((E.length : Int) = r * c → ∃ rows, reconstruct2D E [r, c] = .ok rows) ∧
      (c = 0 → E ≠ [] → reconstruct2D E [r, c] = .error .integerDivideByZero) := by
  obtain ⟨r, rfl⟩ := Int.eq_ofNat_of_zero_le hr
  obtain ⟨c, rfl⟩ := Int.eq_ofNat_of_zero_le hc
  obtain ⟨hfit, hover⟩ := reconstruct2D_outcome E r c
  have hoverI : (r : Int) * (c : Int) < (E.length : Int) →
      reconstruct2D E [(r : Int), (c : Int)]
        = .error (if (c : Int) = 0 then .integerDivideByZero else .indexOutOfRange) := by
    intro h
    have hN : r * c < E.length := by exact_mod_cast h
    rw [hover hN]
    by_cases hc0 : c = 0
    · simp [hc0]
    · have : (c : Int) ≠ 0 := by exact_mod_cast hc0
      simp [hc0, this]
  have hfitI : (E.length : Int) ≤ (r : Int) * (c : Int) →
      ∃ rows, reconstruct2D E [(r : Int), (c : Int)] = .ok rows := by
    intro h
    obtain ⟨rows, hrun, _⟩ := hfit (by exact_mod_cast h)
    exact ⟨rows, hrun⟩
  refine ⟨⟨?_, hfitI⟩, hoverI, fun h => hfitI (le_of_eq h), ?_⟩
  · rintro ⟨rows, hrows⟩
    by_contra hnot
    rw [hoverI (lt_of_not_le hnot)] at hrows
    cases hrows
  · intro hc0 hE
    have hpos : 0 < E.length := List.length_pos.mpr hE
    have h := hoverI (by rw [hc0]; simp; exact hpos)
    rw [if_pos hc0] at h
    exact h

/-- C13 on shape `[2, 0]` with one element and on shape `[1, 2]` with three. -/
theorem reconstruct2D_safe_iff_witness :
    reconstruct2D [some "a"] [2, 0] = .error .integerDivideByZero ∧
      reconstruct2D [some "a", some "b", some "c"] [1, 2] = .error .indexOutOfRange ∧
      ((∃ rows, reconstruct2D [some "a", some "b", some "c"] [1, 2] = .ok rows) ↔
        (([some "a", some "b", some "c"] : List (Option String)).length : Int) ≤ 1 * 2) :=
  ⟨rfl, rfl,
    (reconstruct2D_safe_iff 1 2 [some "a", some "b", some "c"] (by decide) (by decide)).1⟩

/-- C14: for `r ≥ 0`, `c > 0` and an element list `E` with `len(E) ≤ r * c`,
`reconstruct2D` returns `r` rows of length `c` in which the cell at row `k / c`,
column `k % c` holds `E[k]` for `k < len(E)` and nil for `len(E) ≤ k < r * c`. -/
theorem reconstruct2D_underfilled_padded {α : Type} (r c : Int) (E : List (Option α))
    (hr : 0 ≤ r) (hc : 0 < c) (hlen : (E.length : Int) ≤ r * c) :
    ∃ rows, reconstruct2D E [r, c] = .ok rows ∧
      (rows.length : Int) = r ∧
      (∀ row ∈ rows, (row.length : Int) = c) ∧
      (∀ (k : Nat) (hk : k < E.length),
        ∃ row, rows[k / c.toNat]? = some row ∧ row[k % c.toNat]? = some E[k]) ∧
      (∀ k : Nat, E.length ≤ k → (k : Int) < r * c →
        ∃ row, rows[k / c.toNat]? = some row ∧ row[k % c.toNat]? = some none) := by
  obtain ⟨r, rfl⟩ := Int.eq_ofNat_of_zero_le hr
  obtain ⟨c, rfl⟩ := Int.eq_ofNat_of_zero_le (le_of_lt hc)
  have hc0 : 0 < c := by exact_mod_cast hc
  have hlenN : E.length ≤ r * c := by exact_mod_cast hlen
  obtain ⟨rows, hrun, hrows, huni, hflat⟩ := reconstruct2D_fits E r c hc0 hlenN
  refine ⟨rows, hrun, by rw [hrows], ?_, ?_, ?_⟩
  · intro row hrow
    rw [huni row hrow]
  · intro k hk
    simp only [Int.toNat_ofNat]
    apply uniform_cell_of_flatten c hc0 rows huni k
    rw [hflat, List.getElem?_append_left hk, List.getElem?_eq_getElem hk]
  · intro k hk1 hk2
    have hk2N : k < r * c := by exact_mod_cast hk2
    simp only [Int.toNat_ofNat]
    apply uniform_cell_of_flatten c hc0 rows huni k
    rw [hflat, List.getElem?_append_right hk1, List.getElem?_replicate]
    simp
    omega

/-- C14 on shape `[2, 2]` with the single element `"a"`: three cells are nil. -/
theorem reconstruct2D_underfilled_padded_witness :
    (0 : Int) ≤ 2 ∧ (0 : Int) < 2 ∧
      (([some "a"] : List (Option String)).length : Int) ≤ 2 * 2 ∧
      reconstruct2D [some "a"] [2, 2] = .ok [[some "a", none], [none, none]] ∧
      ∃ rows, reconstruct2D [some "a"] [2, 2] = .ok rows ∧
        (rows.length : Int) = 2 ∧
        (∀ row ∈ rows, (row.length : Int) = 2) ∧
        (∀ (k : Nat) (hk : k < [some "a"].length),
          ∃ row, rows[k / (2 : Int).toNat]? = some row ∧
            row[k % (2 : Int).toNat]? = some [some "a"][k]) ∧
        (∀ k : Nat, [some "a"].length ≤ k → (k : Int) < 2 * 2 →
          ∃ row, rows[k / (2 : Int).toNat]? = some row ∧
            row[k % (2 : Int).toNat]? = some none) :=
  ⟨by decide, by decide, by decide, rfl,
    reconstruct2D_underfilled_padded 2 2 [some "a"] (by decide) (by decide) (by decide)⟩

end PgtypeJsonDemo
